import Mathlib

/-!
# Verification of the otel-aws-log-parser pipeline

A shallow embedding, in Lean 4, of the parsing / grouping / batching /
delivery core of the `pixelvide/otel-aws-log-parser` repository, together
with theorems settling its specification's claims.

Modelling conventions:
* Go strings are Lean `String`s; Go `int`/`int64` are `ℤ` with explicit
  clamping where `strconv` clamps on range errors; Go `float64` values are
  modelled as exact rationals `ℚ` (the log parsers only ever compare, copy
  and zero these values, so binary rounding is irrelevant to the claims).
* Fallible Go functions returning `(T, error)` become `Except String` /
  `Option` values; the Go convention `(nil, nil)` (skip a blank/comment
  record) becomes `Except.ok none`.
* `regexp.FindStringSubmatch` is modelled by an explicit backtracking
  matcher over a small pattern language (literal characters and greedy
  character-class repetitions), which is exactly the leftmost-first
  semantics Go's engine gives these patterns.
-/

deriving instance DecidableEq for Except

set_option maxRecDepth 10000

/-! ## Go string helpers -/

/-- The white-space characters `strings.TrimSpace` strips for ASCII/Latin-1
input (`unicode.IsSpace`): space, tab, newline, vertical tab, form feed,
carriage return, NEL and NBSP. -/
def isGoSpace (c : Char) : Bool :=
  c = ' ' || c = '\t' || c = '\n' || c = '\u000B' || c = '\u000C' ||
  c = '\r' || c = '\u0085' || c = '\u00A0'

/-- Go `strings.HasPrefix(line, "#")`: the comment-marker test both
line parsers apply after trimming. -/
def startsWithHash (s : String) : Bool :=
  match s.toList with
  | '#' :: _ => true
  | _ => false

/-- Go `strings.TrimSpace`: strip leading and trailing white space. -/
def goTrimSpace (s : String) : String :=
  String.mk (((s.toList.dropWhile isGoSpace).reverse.dropWhile isGoSpace).reverse)

/-- Split a character list at every occurrence of `sep` (Go
`strings.Split` with a one-character separator: `n` separators yield
`n + 1` pieces, the empty input yields one empty piece). -/
def splitOnChar (sep : Char) : List Char → List (List Char)
  | [] => [[]]
  | c :: rest =>
    if c = sep then [] :: splitOnChar sep rest
    else
      match splitOnChar sep rest with
      | h :: t => (c :: h) :: t
      | [] => [[c]]

/-- Go `strings.Split(line, "\t")`. -/
def goSplitTab (s : String) : List String :=
  (splitOnChar '\t' s.toList).map String.mk

/-! ## Go numeric conversions (`strconv`) -/

/-- Value of a decimal digit string (most significant first). -/
def decimalValue (ds : List Char) : ℕ :=
  ds.foldl (fun n c => n * 10 + (c.toNat - 48)) 0

/-- `strconv.ParseInt(_, 10, 64)` clamps to the `int64` range on a range
error and still returns the clamped bound alongside the error. -/
def int64Clamp (neg : Bool) (n : ℕ) : ℤ :=
  if neg then
    if n ≤ 2 ^ 63 then -(n : ℤ) else -(2 ^ 63 : ℤ)
  else
    if n ≤ 2 ^ 63 - 1 then (n : ℤ) else (2 ^ 63 - 1 : ℤ)

/-- The value returned by Go's `strconv.Atoi` / `strconv.ParseInt(s, 10, 64)`
when its error result is discarded: an optional sign followed by one or more
decimal digits parses to the (range-clamped) value, anything else leaves the
zero value. -/
def goParseIntDec (s : String) : ℤ :=
  match s.toList with
  | [] => 0
  | c :: rest =>
    let p : Bool × List Char :=
      if c = '+' then (false, rest)
      else if c = '-' then (true, rest)
      else (false, c :: rest)
    if p.2 = [] || !(p.2.all Char.isDigit) then 0
    else int64Clamp p.1 (decimalValue p.2)

/-- Exponent-part and mantissa parse for `goParseFloat`; `none` models a
`strconv.ParseFloat` syntax error. Only the plain decimal grammar
(sign, digits, optional fraction, optional decimal exponent) is modelled:
the log formats at hand never carry `inf`/`nan`/hex-float columns. -/
def goParseFloatCore (cs : List Char) : Option ℚ :=
  let sp : Bool × List Char :=
    match cs with
    | '+' :: t => (false, t)
    | '-' :: t => (true, t)
    | t => (false, t)
  let ip := sp.2.takeWhile Char.isDigit
  let cs1 := sp.2.dropWhile Char.isDigit
  let fr : List Char × List Char :=
    match cs1 with
    | '.' :: t => (t.takeWhile Char.isDigit, t.dropWhile Char.isDigit)
    | t => ([], t)
  if ip = [] ∧ fr.1 = [] then none
  else
    let mant : ℚ :=
      (decimalValue ip : ℚ) + (decimalValue fr.1 : ℚ) / (10 ^ fr.1.length : ℚ)
    let signed : ℚ := if sp.1 then -mant else mant
    match fr.2 with
    | [] => some signed
    | e :: t =>
      if e = 'e' ∨ e = 'E' then
        let ep : Bool × List Char :=
          match t with
          | '+' :: u => (false, u)
          | '-' :: u => (true, u)
          | u => (false, u)
        let ed := ep.2.takeWhile Char.isDigit
        let rest := ep.2.dropWhile Char.isDigit
        if ed = [] ∨ rest ≠ [] then none
        else
          let ev : ℤ := if ep.1 then -(decimalValue ed : ℤ) else (decimalValue ed : ℤ)
          some (signed * (10 : ℚ) ^ ev)
      else none

/-- The value returned by Go's `strconv.ParseFloat(s, 64)` when its error
result is discarded (errors leave the zero value). Modelled as an exact
rational; see `goParseFloatCore` for the grammar subset. -/
def goParseFloat (s : String) : ℚ :=
  match goParseFloatCore s.toList with
  | some q => q
  | none => 0

/-! ## CloudFront parser (`src/pkg/parser/cloudfront_parser.go`) -/

/-- `CloudFrontLogEntry`: one parsed CloudFront standard-log record,
33 columns in documented order. -/
structure CloudFrontLogEntry where
  Date : String
  Time : String
  XEdgeLocation : String
  SCBytes : ℤ
  CIP : String
  CSMethod : String
  CSHost : String
  CSURIStem : String
  SCStatus : ℤ
  CSReferer : String
  CSUserAgent : String
  CSURIQuery : String
  CSCookie : String
  XEdgeResultType : String
  XEdgeRequestID : String
  XHostHeader : String
  CSProtocol : String
  CSBytes : ℤ
  TimeTaken : ℚ
  XForwardedFor : String
  SSLProtocol : String
  SSLCipher : String
  XEdgeResponseResultType : String
  CSProtocolVersion : String
  FLEStatus : String
  FLEEncryptedFields : ℤ
  CPort : ℤ
  TimeToFirstByte : ℚ
  XEdgeDetailedResultType : String
  SCContentType : String
  SCContentLen : ℤ
  SCRangeStart : String
  SCRangeEnd : String
deriving DecidableEq

/-- `parseCFInt`: the absent sentinel (`-` or empty) maps to zero, any other
string goes through `strconv.Atoi` with the error discarded. -/
def parseCFInt (s : String) : ℤ :=
  if s = "-" ∨ s = "" then 0 else goParseIntDec s

/-- `parseCFInt64`: same as `parseCFInt` but via `strconv.ParseInt(s,10,64)`
(identical semantics on a 64-bit platform). -/
def parseCFInt64 (s : String) : ℤ :=
  if s = "-" ∨ s = "" then 0 else goParseIntDec s

/-- `parseCFFloat`: the absent sentinel maps to zero, otherwise
`strconv.ParseFloat` with the error discarded. -/
def parseCFFloat (s : String) : ℚ :=
  if s = "-" ∨ s = "" then 0 else goParseFloat s

/-- The record literal `ParseCloudFrontLogLine` builds from the (≥ 33)
tab-separated columns, column `i` feeding field `i+1` of the documented
layout with the numeric coercions of the source. -/
def cloudFrontEntryOfFields (fields : List String) : CloudFrontLogEntry where
  Date := fields.getD 0 ""
  Time := fields.getD 1 ""
  XEdgeLocation := fields.getD 2 ""
  SCBytes := parseCFInt64 (fields.getD 3 "")
  CIP := fields.getD 4 ""
  CSMethod := fields.getD 5 ""
  CSHost := fields.getD 6 ""
  CSURIStem := fields.getD 7 ""
  SCStatus := parseCFInt (fields.getD 8 "")
  CSReferer := fields.getD 9 ""
  CSUserAgent := fields.getD 10 ""
  CSURIQuery := fields.getD 11 ""
  CSCookie := fields.getD 12 ""
  XEdgeResultType := fields.getD 13 ""
  XEdgeRequestID := fields.getD 14 ""
  XHostHeader := fields.getD 15 ""
  CSProtocol := fields.getD 16 ""
  CSBytes := parseCFInt64 (fields.getD 17 "")
  TimeTaken := parseCFFloat (fields.getD 18 "")
  XForwardedFor := fields.getD 19 ""
  SSLProtocol := fields.getD 20 ""
  SSLCipher := fields.getD 21 ""
  XEdgeResponseResultType := fields.getD 22 ""
  CSProtocolVersion := fields.getD 23 ""
  FLEStatus := fields.getD 24 ""
  FLEEncryptedFields := parseCFInt (fields.getD 25 "")
  CPort := parseCFInt (fields.getD 26 "")
  TimeToFirstByte := parseCFFloat (fields.getD 27 "")
  XEdgeDetailedResultType := fields.getD 28 ""
  SCContentType := fields.getD 29 ""
  SCContentLen := parseCFInt64 (fields.getD 30 "")
  SCRangeStart := fields.getD 31 ""
  SCRangeEnd := fields.getD 32 ""

/-- `ParseCloudFrontLogLine`: trim, skip blank and `#`-comment records
(`ok none`), hard error on fewer than 33 tab-separated columns, otherwise
build the entry from the first 33 columns. -/
def ParseCloudFrontLogLine (line : String) : Except String (Option CloudFrontLogEntry) :=
  let line := goTrimSpace line
  if line = "" ∨ startsWithHash line then Except.ok none
  else
    let fields := goSplitTab line
    if fields.length < 33 then
      Except.error ("invalid number of fields: got " ++ toString fields.length ++ ", expected 33")
    else
      Except.ok (some (cloudFrontEntryOfFields fields))

/-! ## A backtracking matcher for the repository's regular expressions

Both patterns of the repository (`nlbLogPattern`, `awsLogsKeyPattern`) are
sequences of literal characters and greedy character-class repetitions
(`[c...]*` / `[c...]+`), some capturing. Go's `regexp` package matches
leftmost-first ("the one a backtracking search ... would have found
first"), which for such patterns is: a greedy repetition first consumes the
longest class-run and backtracks one character at a time. `matchItems`
implements exactly that. -/

/-- One item of a pattern: a literal character, or a greedy repetition of a
character class — `low` repetitions at least (`0` for `*`, `1` for `+`),
captured into the submatch list iff `capture` is set. -/
inductive RItem : Type
  | lit (c : Char)
  | cls (p : Char → Bool) (low : ℕ) (capture : Bool)

/-- Backtracking over the repetition count of one class item: try `k`
characters first (the caller passes the longest class-run), then `k - 1`,
…, down to `low`; `f` matches the rest of the pattern. -/
def tryFrom (f : List Char → Option (List String × List Char)) (capture : Bool)
    (low : ℕ) (s : List Char) : ℕ → Option (List String × List Char)
  | 0 =>
    if 0 < low then none
    else
      match f s with
      | some pr => some ((if capture then [""] else []) ++ pr.1, pr.2)
      | none => none
  | k + 1 =>
    if k + 1 < low then none
    else
      match f (s.drop (k + 1)) with
      | some pr => some ((if capture then [String.mk (s.take (k + 1))] else []) ++ pr.1, pr.2)
      | none => tryFrom f capture low s k

/-- Match a pattern against a prefix of `s`: on success, the captured
submatches in order and the unconsumed suffix (the patterns at hand carry no
end anchor, so trailing input is allowed). -/
def matchItems : List RItem → List Char → Option (List String × List Char)
  | [], s => some ([], s)
  | RItem.lit _ :: _, [] => none
  | RItem.lit c :: rest, x :: s => if x = c then matchItems rest s else none
  | RItem.cls p low capture :: rest, s =>
    tryFrom (matchItems rest) capture low s (s.takeWhile p).length

/-- `FindStringSubmatch` for an unanchored pattern: try each start position
left to right (leftmost match wins). -/
def findFrom (items : List RItem) : List Char → Option (List String × List Char)
  | [] => matchItems items []
  | c :: s =>
    match matchItems items (c :: s) with
    | some r => some r
    | none => findFrom items s

/-- A literal string as a run of `RItem.lit` items. -/
def litItems (s : String) : List RItem :=
  s.toList.map RItem.lit

/-! ## NLB parser (`ParseNLBLogLine`, `src/unnamed/part_002`) -/

/-- `NLBLogEntry`: one parsed NLB (network load balancer) access-log
record. -/
structure NLBLogEntry where
  «Type» : String
  Version : String
  Time : String
  ELB : String
  ListenerID : String
  ClientIP : String
  ClientPort : ℤ
  TargetIP : String
  TargetPort : ℤ
  ConnectionTime : ℚ
  TLSHandshakeTime : ℚ
  ReceivedBytes : ℤ
  SentBytes : ℤ
  IncomingTLSAlert : String
  ChosenCertARN : String
  ChosenCertSerial : String
  TLSCipher : String
  TLSProtocolVersion : String
  TLSNamedGroup : String
  DomainName : String
  ALPNProtocol : String
  ALPNClientPreferenceList : String
  TLSHandshakeTimeMS : ℚ
deriving DecidableEq

/-- The character classes of `nlbLogPattern`. -/
def notSpace (c : Char) : Bool := c ≠ ' '

/-- `[-.0-9]`. -/
def dashDotDigit (c : Char) : Bool := c = '-' || c = '.' || c.isDigit

/-- `[-0-9]`. -/
def dashDigit (c : Char) : Bool := c = '-' || c.isDigit

/-- `nlbLogPattern` as pattern items: 23 capturing groups separated by
literal spaces (and two literal colons inside the `ip:port` fields),
mirroring
`^([^ ]*) ([^ ]*) ([^ ]*) ([^ ]*) ([^ ]*) ([^ ]*):([0-9]*) ([^ ]*):([0-9]*)
([-.0-9]*) ([-.0-9]*) ([-0-9]*) ([-0-9]*) ([^ ]*) ([^ ]*) ([^ ]*) ([^ ]*)
([^ ]*) ([^ ]*) ([^ ]*) ([^ ]*) ([^ ]*) ([-.0-9]*)`. -/
def nlbLogPattern : List RItem :=
  [RItem.cls notSpace 0 true, RItem.lit ' ',
   RItem.cls notSpace 0 true, RItem.lit ' ',
   RItem.cls notSpace 0 true, RItem.lit ' ',
   RItem.cls notSpace 0 true, RItem.lit ' ',
   RItem.cls notSpace 0 true, RItem.lit ' ',
   RItem.cls notSpace 0 true, RItem.lit ':', RItem.cls Char.isDigit 0 true, RItem.lit ' ',
   RItem.cls notSpace 0 true, RItem.lit ':', RItem.cls Char.isDigit 0 true, RItem.lit ' ',
   RItem.cls dashDotDigit 0 true, RItem.lit ' ',
   RItem.cls dashDotDigit 0 true, RItem.lit ' ',
   RItem.cls dashDigit 0 true, RItem.lit ' ',
   RItem.cls dashDigit 0 true, RItem.lit ' ',
   RItem.cls notSpace 0 true, RItem.lit ' ',
   RItem.cls notSpace 0 true, RItem.lit ' ',
   RItem.cls notSpace 0 true, RItem.lit ' ',
   RItem.cls notSpace 0 true, RItem.lit ' ',
   RItem.cls notSpace 0 true, RItem.lit ' ',
   RItem.cls notSpace 0 true, RItem.lit ' ',
   RItem.cls notSpace 0 true, RItem.lit ' ',
   RItem.cls notSpace 0 true, RItem.lit ' ',
   RItem.cls notSpace 0 true, RItem.lit ' ',
   RItem.cls dashDotDigit 0 true]

/-- The submatch list Go's `FindStringSubmatch` returns on success for an
`^`-anchored pattern: index 0 is the full match, the captures follow.
With `^` and no multiline flag the match can only start at the beginning
of the text. -/
def goFindStringSubmatchAnchored (items : List RItem) (s : String) : Option (List String) :=
  match matchItems items s.toList with
  | some pr => some (String.mk (s.toList.take (s.toList.length - pr.2.length)) :: pr.1)
  | none => none

/-- Modelled from the spec: the helper `getString(matches, i)` of the
(absent) sibling load-balancer parser file returns submatch `i` as-is. -/
def getString (ms : List String) (i : ℕ) : String :=
  ms.getD i ""

/-- Modelled from the spec: the helper `getInt(matches, i)` of the (absent)
sibling parser file coerces submatch `i` with the documented numeric rule —
the absent sentinel (`-` or empty) maps to zero, otherwise decimal parse
with the error discarded. -/
def getInt (ms : List String) (i : ℕ) : ℤ :=
  let s := ms.getD i ""
  if s = "-" ∨ s = "" then 0 else goParseIntDec s

/-- Modelled from the spec: `getInt64`, same rule as `getInt`. -/
def getInt64 (ms : List String) (i : ℕ) : ℤ :=
  let s := ms.getD i ""
  if s = "-" ∨ s = "" then 0 else goParseIntDec s

/-- Modelled from the spec: `getFloat`, the float coercion with the absent
sentinel mapped to zero. -/
def getFloat (ms : List String) (i : ℕ) : ℚ :=
  let s := ms.getD i ""
  if s = "-" ∨ s = "" then 0 else goParseFloat s

/-- The entry `ParseNLBLogLine` builds from a successful submatch list. -/
def nlbEntryOfMatches (ms : List String) : NLBLogEntry where
  «Type» := getString ms 1
  Version := getString ms 2
  Time := getString ms 3
  ELB := getString ms 4
  ListenerID := getString ms 5
  ClientIP := getString ms 6
  ClientPort := getInt ms 7
  TargetIP := getString ms 8
  TargetPort := getInt ms 9
  ConnectionTime := getFloat ms 10
  TLSHandshakeTime := getFloat ms 11
  ReceivedBytes := getInt64 ms 12
  SentBytes := getInt64 ms 13
  IncomingTLSAlert := getString ms 14
  ChosenCertARN := getString ms 15
  ChosenCertSerial := getString ms 16
  TLSCipher := getString ms 17
  TLSProtocolVersion := getString ms 18
  TLSNamedGroup := getString ms 19
  DomainName := getString ms 20
  ALPNProtocol := getString ms 21
  ALPNClientPreferenceList := getString ms 22
  TLSHandshakeTimeMS := getFloat ms 23

/-- `ParseNLBLogLine`: trim, skip blank and `#`-comment lines, then match
the single anchored pattern; no match is a hard parse error, a match fills
every field from its submatch. -/
def ParseNLBLogLine (line : String) : Except String (Option NLBLogEntry) :=
  let line := goTrimSpace line
  if line = "" ∨ startsWithHash line then Except.ok none
  else
    match goFindStringSubmatchAnchored nlbLogPattern line with
    | none => Except.error "failed to parse NLB log line"
    | some ms => Except.ok (some (nlbEntryOfMatches ms))

/-! ## S3-key account/region extraction (`src/unnamed/part_000`) -/

/-- `[^/]`. -/
def notSlash (c : Char) : Bool := c ≠ '/'

/-- `awsLogsKeyPattern`, i.e. `AWSLogs/(\d+)/[^/]+/([^/]+)/` as pattern
items: the literal `AWSLogs/`, a captured digit run, `/`, an uncaptured
segment, `/`, a captured segment, `/`. -/
def awsLogsKeyPattern : List RItem :=
  litItems "AWSLogs/" ++
  [RItem.cls Char.isDigit 1 true, RItem.lit '/',
   RItem.cls notSlash 1 false, RItem.lit '/',
   RItem.cls notSlash 1 true, RItem.lit '/']

/-- `ParseRegionAccountFromS3Key`: search the key for the canonical
`AWSLogs/<account>/<service>/<region>/` layout (leftmost match) and return
`(accountID, region)`; `("", "")` when the pattern does not match. -/
def ParseRegionAccountFromS3Key (key : String) : String × String :=
  match findFrom awsLogsKeyPattern key.toList with
  | some pr => (pr.1.getD 0 "", pr.1.getD 1 "")
  | none => ("", "")

/-! ## Resource-key derivation (`getResourceKey`, `ALBAdapter.GetResourceKey`) -/

/-- The two fields of `parser.ALBLogEntry` the resource-key derivation
reads (the ALB line parser itself lives outside the staged sources; no other
field of the entry is consulted here). -/
structure ALBLogEntry where
  TargetGroupARN : String
  ChosenCertARN : String
deriving DecidableEq

/-- `getResourceKey` (lambda main): the target-group ARN unless it is
empty or the literal `-`, in which case the chosen-certificate ARN —
returned verbatim — stands in. -/
def getResourceKey (entry : ALBLogEntry) : String :=
  let arn := entry.TargetGroupARN
  let arn := if arn = "" ∨ arn = "-" then entry.ChosenCertARN else arn
  arn

/-- `ALBAdapter` (processor file): an ALB entry plus the cloud context
inferred from the S3 key. -/
structure ALBAdapter where
  ALBLogEntry : ALBLogEntry
  AccountID : String
  Region : String

/-- `ALBAdapter.GetResourceKey`: same derivation as `getResourceKey`. -/
def ALBAdapter.GetResourceKey (a : ALBAdapter) : String :=
  let arn := a.ALBLogEntry.TargetGroupARN
  let arn := if arn = "" ∨ arn = "-" then a.ALBLogEntry.ChosenCertARN else arn
  arn

/-! ## Resource grouping (`convertAndSend`, grouping loop)

The loop is generic in the entry type and in the three converter calls it
makes (`getResourceKey`, `converter.ExtractResourceAttributes`,
`converter.ConvertToOTel`), so the embedding takes them as parameters.
The Go map is modelled as an association list with unique keys; map
semantics (lookup/insert/update) is all the loop uses. -/

/-- `resourceGroup`: per-key accumulated resource attributes and ordered
log records. -/
structure resourceGroup (A R : Type) where
  ResourceAttrs : A
  LogRecords : List R
deriving DecidableEq

/-- Lookup in the association list modelling the Go map. -/
def lookupKey {G : Type} : List (String × G) → String → Option G
  | [], _ => none
  | p :: m, k => if k = p.1 then some p.2 else lookupKey m k

/-- Update the value stored for key `k` (no-op on other keys). -/
def updateGroup {G : Type} (m : List (String × G)) (k : String) (f : G → G) :
    List (String × G) :=
  m.map (fun p => if p.1 = k then (p.1, f p.2) else p)

/-- One iteration of the grouping loop: create the group on first sight of
the key (freezing its resource attributes from this entry), then append
the entry's converted record to the group. -/
def groupStep {E A R : Type} (key : E → String) (attrs : E → A) (conv : E → R)
    (m : List (String × resourceGroup A R)) (e : E) : List (String × resourceGroup A R) :=
  let k := key e
  let m1 := match lookupKey m k with
    | none => m ++ [(k, ⟨attrs e, []⟩)]
    | some _ => m
  updateGroup m1 k (fun g => ⟨g.ResourceAttrs, g.LogRecords ++ [conv e]⟩)

/-- The grouping loop of `convertAndSend`: fold `groupStep` over the
entry list. -/
def groupEntries {E A R : Type} (key : E → String) (attrs : E → A) (conv : E → R)
    (entries : List E) : List (String × resourceGroup A R) :=
  entries.foldl (groupStep key attrs conv) []

/-! ## Batching (`convertAndSend`, batch loop) and payload shape -/

/-- One iteration tower of the batch loop
`for i := 0; i < len; i += B { end := min(i+B, len); batch := l[i:end] }`,
structured on explicit fuel (the loop advances `i` by `B ≥ 1` each round,
so `l.length` rounds of fuel suffice). -/
def batchAux {R : Type} (B : ℕ) (l : List R) : ℕ → ℕ → List (List R)
  | 0, _ => []
  | fuel + 1, i =>
    if i < l.length then
      ((l.drop i).take (min (i + B) l.length - i)) :: batchAux B l fuel (i + B)
    else []

/-- The batch slices `convertAndSend` sends for one group's record list. -/
def batchSlices {R : Type} (B : ℕ) (l : List R) : List (List R) :=
  batchAux B l l.length 0

/-- `converter.Scope`. -/
structure Scope where
  name : String
  version : String
deriving DecidableEq

/-- `converter.ScopeLog`. -/
structure ScopeLog (R : Type) where
  scope : Scope
  logRecords : List R
deriving DecidableEq

/-- `converter.ResourceLog` (resource attributes plus scope logs). -/
structure ResourceLog (A R : Type) where
  resourceAttributes : A
  scopeLogs : List (ScopeLog R)
deriving DecidableEq

/-- `converter.OTLPPayload`. -/
structure OTLPPayload (A R : Type) where
  resourceLogs : List (ResourceLog A R)
deriving DecidableEq

/-- `buildPayload`: one resource-log entry wrapping one scope
(`alb-log-parser` / `1.0.0`) holding the batch. -/
def buildPayload {A R : Type} (resourceAttrs : A) (logRecords : List R) :
    OTLPPayload A R :=
  ⟨[⟨resourceAttrs, [⟨⟨"alb-log-parser", "1.0.0"⟩, logRecords⟩]⟩]⟩

/-- The payloads `convertAndSend` builds: for each group (in map order),
one payload per batch slice of that group's records. -/
def convertAndSendPayloads {A R : Type} (B : ℕ)
    (groups : List (String × resourceGroup A R)) : List (OTLPPayload A R) :=
  groups.flatMap (fun p => (batchSlices B p.2.LogRecords).map (buildPayload p.2.ResourceAttrs))

/-! ## Delivery retry (`sendWithRetry`) -/

/-- What one delivery attempt can observe: a transport-level failure
(`http.NewRequest` or `client.Do` returning an error) or an HTTP response
with its status and body. -/
inductive AttemptOutcome : Type
  | transportError (msg : String)
  | response (status : ℕ) (body : String)
deriving DecidableEq

/-- Success criterion of one attempt: HTTP status in `[200, 300)`. -/
def attemptSucceeds : AttemptOutcome → Bool
  | AttemptOutcome.transportError _ => false
  | AttemptOutcome.response status _ => 200 ≤ status && status < 300

/-- The failure cause an attempt records into `lastErr` (the code formats
non-2xx responses as an `HTTP <status>: <body>` error). -/
def attemptErrString : AttemptOutcome → String
  | AttemptOutcome.transportError msg => msg
  | AttemptOutcome.response status body => "HTTP " ++ toString status ++ ": " ++ body

/-- Whole seconds slept before retry `attempt` (> 0):
`time.Duration(retryBaseSec * float64(1 << (attempt-1))) * time.Second`,
i.e. the float `retryBaseSec * 2^(attempt-1)` truncated to a whole number
of seconds. (The `int64` wrap-around of the shift and of the nanosecond
product, reachable only from retry 35 on — backoffs of centuries — is not
modelled.) -/
def backoffSleepSec (retryBaseSec : ℚ) (attempt : ℕ) : ℤ :=
  ⌊retryBaseSec * (2 : ℚ) ^ (attempt - 1)⌋

/-- Result of `sendWithRetry`: which attempt succeeded, or the failure
report `failed after <maxRetries+1> attempts: <lastErr>`; plus the list of
backoff sleeps performed, in order. -/
structure SendTrace where
  result : Except (ℕ × Option String) ℕ
  attempts : ℕ
  sleeps : List ℤ
deriving DecidableEq

/-- The retry loop of `sendWithRetry`, one constructor case per remaining
permitted attempt: sleep before every attempt but the first, fire the
attempt, return on 2xx, otherwise record the failure cause and continue;
when attempts run out, fail with `maxRetries + 1` and the last cause. -/
def sendAux (respond : ℕ → AttemptOutcome) (maxRetries : ℕ) (base : ℚ) :
    ℕ → Option String → List ℤ → ℕ → SendTrace
  | attempt, lastErr, sleeps, 0 =>
    ⟨Except.error (maxRetries + 1, lastErr), attempt, sleeps⟩
  | attempt, lastErr, sleeps, remaining + 1 =>
    let sleeps := if 0 < attempt then sleeps ++ [backoffSleepSec base attempt] else sleeps
    let outcome := respond attempt
    if attemptSucceeds outcome then
      ⟨Except.ok attempt, attempt + 1, sleeps⟩
    else
      sendAux respond maxRetries base (attempt + 1) (some (attemptErrString outcome)) sleeps remaining

/-- `sendWithRetry` over an abstract transport `respond` (attempt index ↦
observed outcome); the `json.Marshal` step, which cannot fail for this
payload type, is outside the loop and not modelled. -/
def sendWithRetry (respond : ℕ → AttemptOutcome) (maxRetries : ℕ) (base : ℚ) : SendTrace :=
  sendAux respond maxRetries base 0 none [] (maxRetries + 1)

/-! ## Concurrent streaming ingestion (`readAndParseFromS3`)

The worker-pool body is deterministic per line; the nondeterminism is in
which worker receives which line and in the interleaving of the result
channel. A schedule is modelled by (a) the lists of lines each worker
consumed — jointly a permutation of the input lines, since the line
channel delivers every line to exactly one worker — and (b) any
permutation of the concatenated worker outputs as the collected result
(every interleaving of the workers' ordered outputs is such a
permutation). The ALB line parser called by the workers is a parameter. -/

/-- One worker's loop over the lines it received: skip empty lines, parse,
drop failures, keep parsed entries in order. -/
def workerEntries {E : Type} (parse : String → Option E) (lines : List String) : List E :=
  lines.filterMap (fun line => if line = "" then none else parse line)

/-- The sequential single-threaded baseline: the same per-line treatment
applied to the whole file in order. -/
def sequentialEntries {E : Type} (parse : String → Option E) (lines : List String) : List E :=
  workerEntries parse lines

/-! ## Lemmas: batching -/

lemma ceil_div_step (r B : ℕ) (hr : 0 < r) (hB : 0 < B) :
    (r + B - 1) / B = (r - B + B - 1) / B + 1 := by
  rcases le_or_lt r B with h | h
  · have h1 : r + B - 1 = (r - 1) + B := by omega
    have h2 : r - B = 0 := by omega
    rw [h1, Nat.add_div_right _ hB, h2]
    have : (r - 1) / B = 0 := Nat.div_eq_of_lt (by omega)
    rw [this]
    have : (0 + B - 1) / B = 0 := Nat.div_eq_of_lt (by omega)
    rw [this]
  · have h1 : r + B - 1 = (r - B + B - 1) + B := by omega
    rw [h1, Nat.add_div_right _ hB]

lemma batchAux_length {R : Type} (B : ℕ) (l : List R) (hB : 1 ≤ B) :
    ∀ fuel i, l.length - i ≤ fuel →
      (batchAux B l fuel i).length = (l.length - i + B - 1) / B := by
  intro fuel
  induction fuel with
  | zero =>
    intro i hi
    have h0 : l.length - i = 0 := by omega
    simp [batchAux, h0, Nat.div_eq_of_lt (by omega : B - 1 < B)]
  | succ fuel ih =>
    intro i hi
    by_cases h : i < l.length
    · have := ih (i + B) (by omega)
      simp only [batchAux, if_pos h, List.length_cons, this]
      have hr : 0 < l.length - i := by omega
      have harg : l.length - (i + B) = l.length - i - B := by omega
      rw [harg, ceil_div_step (l.length - i) B hr (by omega)]
    · have h0 : l.length - i = 0 := by omega
      simp only [batchAux, if_neg h, List.length_nil, h0]
      rw [Nat.div_eq_of_lt (by omega : 0 + B - 1 < B)]

lemma batchAux_join {R : Type} (B : ℕ) (l : List R) (hB : 1 ≤ B) :
    ∀ fuel i, l.length - i ≤ fuel →
      (batchAux B l fuel i).flatten = l.drop i := by
  intro fuel
  induction fuel with
  | zero =>
    intro i hi
    have : l.length ≤ i := by omega
    simp [batchAux, List.drop_eq_nil_of_le this]
  | succ fuel ih =>
    intro i hi
    by_cases h : i < l.length
    · simp only [batchAux, if_pos h, List.flatten_cons]
      rw [ih (i + B) (by omega)]
      have hdd : l.drop (i + B) = (l.drop i).drop B := by
        rw [List.drop_drop, Nat.add_comm]
      rw [hdd]
      have htk : (l.drop i).take (min (i + B) l.length - i) = (l.drop i).take B := by
        rw [List.take_eq_take]
        simp [List.length_drop]
        omega
      rw [htk, List.take_append_drop]
    · have : l.length ≤ i := by omega
      simp [batchAux, if_neg h, List.drop_eq_nil_of_le this]

lemma batchAux_len_le {R : Type} (B : ℕ) (l : List R) :
    ∀ fuel i, ∀ b ∈ batchAux B l fuel i, b.length ≤ B := by
  intro fuel
  induction fuel with
  | zero => intro i b hb; simp [batchAux] at hb
  | succ fuel ih =>
    intro i b hb
    by_cases h : i < l.length
    · simp only [batchAux, if_pos h, List.mem_cons] at hb
      rcases hb with rfl | hb
      · simp [List.length_take, List.length_drop]
        omega
      · exact ih (i + B) b hb
    · simp [batchAux, if_neg h] at hb

lemma batchAux_ne_nil_imp {R : Type} (B : ℕ) (l : List R) (fuel i : ℕ)
    (h : batchAux B l fuel i ≠ []) : i < l.length := by
  by_contra hc
  cases fuel with
  | zero => simp [batchAux] at h
  | succ fuel => simp [batchAux, if_neg hc] at h

lemma batchAux_dropLast_len {R : Type} (B : ℕ) (l : List R) (hB : 1 ≤ B) :
    ∀ fuel i, ∀ b ∈ (batchAux B l fuel i).dropLast, b.length = B := by
  intro fuel
  induction fuel with
  | zero => intro i b hb; simp [batchAux] at hb
  | succ fuel ih =>
    intro i b hb
    by_cases h : i < l.length
    · simp only [batchAux, if_pos h] at hb
      by_cases hrest : batchAux B l fuel (i + B) = []
      · rw [hrest] at hb
        simp at hb
      · rw [List.dropLast_cons_of_ne_nil hrest, List.mem_cons] at hb
        rcases hb with rfl | hb
        · have hiB : i + B < l.length := batchAux_ne_nil_imp B l fuel (i + B) hrest
          simp [List.length_take, List.length_drop]
          omega
        · exact ih (i + B) b hb
    · simp [batchAux, if_neg h] at hb

lemma convertAndSendPayloads_mem {A R : Type} (B : ℕ)
    (groups : List (String × resourceGroup A R)) (p : OTLPPayload A R)
    (hp : p ∈ convertAndSendPayloads B groups) :
    ∃ pr, pr ∈ groups ∧ ∃ b, b ∈ batchSlices B pr.2.LogRecords ∧
      p = buildPayload pr.2.ResourceAttrs b := by
  simp only [convertAndSendPayloads, List.mem_flatMap, List.mem_map] at hp
  obtain ⟨pr, hpr, b, hb, rfl⟩ := hp
  exact ⟨pr, hpr, b, hb, rfl⟩

/-- C2. For every resource group's record list `l` and batch size `B ≥ 1`,
the batch loop of `convertAndSend` produces `⌈|l| / B⌉` slices; the slices
concatenate, in order, back to `l` (hence they are contiguous,
non-overlapping and cover the list in stored order); every slice has at
most `B` records and every slice but the last exactly `B`; and every
payload built by `convertAndSend` wraps a batch of exactly one group's
record list, so no batch mixes records of two groups. -/
theorem convertAndSend_batching (A R : Type) (l : List R) (B : ℕ)
    (groups : List (String × resourceGroup A R)) (hB : 1 ≤ B) :
    (batchSlices B l).length = (l.length + B - 1) / B ∧
    (batchSlices B l).flatten = l ∧
    (∀ b ∈ batchSlices B l, b.length ≤ B) ∧
    (∀ b ∈ (batchSlices B l).dropLast, b.length = B) ∧
    (∀ p ∈ convertAndSendPayloads B groups,
      ∃ pr, pr ∈ groups ∧ ∃ b, b ∈ batchSlices B pr.2.LogRecords ∧
        p = buildPayload pr.2.ResourceAttrs b) := by
  refine ⟨?_, ?_, ?_, ?_, ?_⟩
  · have := batchAux_length B l hB l.length 0 (by omega)
    simpa [batchSlices] using this
  · have := batchAux_join B l hB l.length 0 (by omega)
    simpa [batchSlices] using this
  · intro b hb
    exact batchAux_len_le B l l.length 0 b hb
  · intro b hb
    exact batchAux_dropLast_len B l hB l.length 0 b hb
  · intro p hp
    exact convertAndSendPayloads_mem B groups p hp

/-- C2 witness: the batching theorem at a concrete group list and batch
size 2. -/
theorem convertAndSend_batching_witness :
    (batchSlices 2 [0, 1, 2, 3, 4]).length = (5 + 2 - 1) / 2 ∧
    (batchSlices 2 [0, 1, 2, 3, 4]).flatten = [0, 1, 2, 3, 4] ∧
    (∀ b ∈ batchSlices 2 [0, 1, 2, 3, 4], b.length ≤ 2) ∧
    (∀ b ∈ (batchSlices 2 [0, 1, 2, 3, 4]).dropLast, b.length = 2) ∧
    (∀ p ∈ convertAndSendPayloads 2 [("k", (⟨"attrs", [0, 1, 2, 3, 4]⟩ : resourceGroup String ℕ))],
      ∃ pr, pr ∈ [("k", (⟨"attrs", [0, 1, 2, 3, 4]⟩ : resourceGroup String ℕ))] ∧
        ∃ b, b ∈ batchSlices 2 pr.2.LogRecords ∧
          p = buildPayload pr.2.ResourceAttrs b) :=
  convertAndSend_batching String ℕ [0, 1, 2, 3, 4] 2
    [("k", ⟨"attrs", [0, 1, 2, 3, 4]⟩)] (by omega)

/-! ## Lemmas: grouping -/

lemma lookup_append_single {G : Type} (m : List (String × G)) (k k₀ : String) (g₀ : G) :
    lookupKey (m ++ [(k₀, g₀)]) k =
      match lookupKey m k with
      | some g => some g
      | none => if k = k₀ then some g₀ else none := by
  induction m with
  | nil => by_cases h : k = k₀ <;> simp [lookupKey, h]
  | cons p m ih =>
    by_cases h : k = p.1
    · simp [lookupKey, h]
    · simp only [List.cons_append, lookupKey, if_neg h]
      exact ih

lemma lookup_updateGroup {G : Type} (m : List (String × G)) (k k₀ : String) (f : G → G) :
    lookupKey (updateGroup m k₀ f) k =
      if k = k₀ then (lookupKey m k).map f else lookupKey m k := by
  induction m with
  | nil => by_cases h : k = k₀ <;> simp [updateGroup, lookupKey, h]
  | cons p m ih =>
    simp only [updateGroup, List.map_cons]
    by_cases hp : p.1 = k₀
    · by_cases hk : k = p.1
      · subst hk
        simp [lookupKey, hp]
      · rw [show ((if p.1 = k₀ then (p.1, f p.2) else p) = (p.1, f p.2)) by rw [if_pos hp]]
        simp only [lookupKey, if_neg hk]
        simp only [updateGroup] at ih
        exact ih
    · rw [show ((if p.1 = k₀ then (p.1, f p.2) else p) = p) by rw [if_neg hp]]
      by_cases hk : k = p.1
      · subst hk
        simp [lookupKey, if_neg hp]
      · simp only [lookupKey, if_neg hk]
        simp only [updateGroup] at ih
        exact ih

/-- The grouping-loop invariant: after processing `processed`, each key's
group holds exactly the records of that key's entries, in order, with the
attributes of the first such entry. -/
def groupInv {E A R : Type} (key : E → String) (attrs : E → A) (conv : E → R)
    (m : List (String × resourceGroup A R)) (processed : List E) : Prop :=
  ∀ k : String,
    (lookupKey m k = none → processed.filter (fun e => key e = k) = []) ∧
    (∀ g, lookupKey m k = some g →
      ∃ e₀, (processed.filter (fun e => key e = k)).head? = some e₀ ∧
        g.ResourceAttrs = attrs e₀ ∧
        g.LogRecords = (processed.filter (fun e => key e = k)).map conv)

lemma groupInv_nil {E A R : Type} (key : E → String) (attrs : E → A) (conv : E → R) :
    groupInv key attrs conv [] [] := by
  intro k
  constructor
  · intro _; simp
  · intro g hg; simp [lookupKey] at hg

lemma groupInv_step {E A R : Type} (key : E → String) (attrs : E → A) (conv : E → R)
    (m : List (String × resourceGroup A R)) (processed : List E) (e : E)
    (h : groupInv key attrs conv m processed) :
    groupInv key attrs conv (groupStep key attrs conv m e) (processed ++ [e]) := by
  intro k
  have hfilter : (processed ++ [e]).filter (fun x => key x = k) =
      processed.filter (fun x => key x = k) ++ if key e = k then [e] else [] := by
    rw [List.filter_append]
    congr 1
    by_cases hek : key e = k <;> simp [hek]
  by_cases hk : k = key e
  · -- the processed entry's own key
    subst hk
    simp only [groupStep]
    rcases hm : lookupKey m (key e) with _ | g
    · -- first sight of the key
      simp only [hm]
      constructor
      · intro hnone
        rw [lookup_updateGroup, if_pos rfl, lookup_append_single, hm] at hnone
        simp at hnone
      · intro g' hg'
        rw [lookup_updateGroup, if_pos rfl, lookup_append_single, hm] at hg'
        simp only [if_pos rfl, if_true, Option.map_some] at hg'
        obtain rfl : g' = ⟨attrs e, [conv e]⟩ := by
          cases hg'
          rfl
        have hempty := (h (key e)).1 hm
        refine ⟨e, ?_, ?_, ?_⟩
        · rw [hfilter, hempty]
          simp
        · rfl
        · rw [hfilter, hempty]
          simp
    · -- key already present
      simp only [hm]
      constructor
      · intro hnone
        rw [lookup_updateGroup, if_pos rfl, hm] at hnone
        simp at hnone
      · intro g' hg'
        rw [lookup_updateGroup, if_pos rfl, hm] at hg'
        obtain rfl : g' = ⟨g.ResourceAttrs, g.LogRecords ++ [conv e]⟩ := by
          cases hg'
          rfl
        obtain ⟨e₀, he₀, hattrs, hrecs⟩ := (h (key e)).2 g hm
        have hne : processed.filter (fun x => key x = key e) ≠ [] := by
          intro hnil
          rw [hnil] at he₀
          simp at he₀
        refine ⟨e₀, ?_, ?_, ?_⟩
        · rw [hfilter, if_pos rfl, List.head?_append_of_ne_nil _ hne]
          exact he₀
        · exact hattrs
        · rw [hfilter, if_pos rfl, List.map_append]
          simp [hrecs]
  · -- an unrelated key: nothing changes
    have hsame : lookupKey (groupStep key attrs conv m e) k = lookupKey m k := by
      simp only [groupStep]
      rcases hm : lookupKey m (key e) with _ | g
      · rw [lookup_updateGroup, if_neg hk, lookup_append_single]
        rcases hmk : lookupKey m k with _ | g'
        · simp [if_neg hk]
        · simp
      · rw [lookup_updateGroup, if_neg hk]
    have hflt : (processed ++ [e]).filter (fun x => key x = k) =
        processed.filter (fun x => key x = k) := by
      rw [hfilter, if_neg (by exact fun hc => hk hc.symm)]
      simp
    constructor
    · intro hnone
      rw [hsame] at hnone
      rw [hflt]
      exact (h k).1 hnone
    · intro g hg
      rw [hsame] at hg
      rw [hflt]
      exact (h k).2 g hg

lemma groupInv_foldl {E A R : Type} (key : E → String) (attrs : E → A) (conv : E → R) :
    ∀ (entries : List E) (m : List (String × resourceGroup A R)) (processed : List E),
      groupInv key attrs conv m processed →
      groupInv key attrs conv (entries.foldl (groupStep key attrs conv) m)
        (processed ++ entries) := by
  intro entries
  induction entries with
  | nil => intro m processed h; simpa using h
  | cons e rest ih =>
    intro m processed h
    have := ih (groupStep key attrs conv m e) (processed ++ [e]) (groupInv_step _ _ _ _ _ _ h)
    simpa using this

/-- C3. The grouping loop of `convertAndSend` (one pass over the entries,
with `getResourceKey`, `ExtractResourceAttributes` and `ConvertToOTel`
abstract) yields, for every key: no group iff no entry has the key; and
otherwise a group whose resource attributes are computed from the first
entry observed with that key (later entries' attributes are discarded) and
whose record list is exactly the converted records of that key's entries in
input order — so all records of a group share the one attribute set frozen
from the group's first-observed adapter. -/
theorem convertAndSend_grouping (E A R : Type) (key : E → String) (attrs : E → A)
    (conv : E → R) (entries : List E) (k : String) :
    (lookupKey (groupEntries key attrs conv entries) k = none →
      entries.filter (fun e => key e = k) = []) ∧
    (∀ g, lookupKey (groupEntries key attrs conv entries) k = some g →
      ∃ e₀, (entries.filter (fun e => key e = k)).head? = some e₀ ∧
        g.ResourceAttrs = attrs e₀ ∧
        g.LogRecords = (entries.filter (fun e => key e = k)).map conv) := by
  have h := groupInv_foldl key attrs conv entries [] [] (groupInv_nil key attrs conv)
  simpa [groupEntries] using h k

/-! ## Lemmas: delivery retry -/

lemma sendAux_attempts_le (respond : ℕ → AttemptOutcome) (maxRetries : ℕ) (base : ℚ) :
    ∀ (remaining attempt : ℕ) (lastErr : Option String) (sleeps : List ℤ),
      (sendAux respond maxRetries base attempt lastErr sleeps remaining).attempts ≤
        attempt + remaining := by
  intro remaining
  induction remaining with
  | zero => intro attempt lastErr sleeps; simp [sendAux]
  | succ r ih =>
    intro attempt lastErr sleeps
    simp only [sendAux]
    by_cases h : attemptSucceeds (respond attempt) = true
    · rw [if_pos h]
      simp
    · rw [if_neg h]
      have := ih (attempt + 1) (some (attemptErrString (respond attempt)))
        (if 0 < attempt then sleeps ++ [backoffSleepSec base attempt] else sleeps)
      calc _ ≤ attempt + 1 + r := this
        _ = attempt + (r + 1) := by omega

lemma sendAux_attempts_ge (respond : ℕ → AttemptOutcome) (maxRetries : ℕ) (base : ℚ) :
    ∀ (remaining attempt : ℕ) (lastErr : Option String) (sleeps : List ℤ),
      attempt ≤ (sendAux respond maxRetries base attempt lastErr sleeps remaining).attempts := by
  intro remaining
  induction remaining with
  | zero => intro attempt lastErr sleeps; simp [sendAux]
  | succ r ih =>
    intro attempt lastErr sleeps
    simp only [sendAux]
    by_cases h : attemptSucceeds (respond attempt) = true
    · rw [if_pos h]
      simp
    · rw [if_neg h]
      have := ih (attempt + 1) (some (attemptErrString (respond attempt)))
        (if 0 < attempt then sleeps ++ [backoffSleepSec base attempt] else sleeps)
      omega

lemma sendAux_sleeps (respond : ℕ → AttemptOutcome) (maxRetries : ℕ) (base : ℚ) :
    ∀ (remaining attempt : ℕ) (lastErr : Option String) (sleeps : List ℤ),
      1 ≤ attempt →
      (sendAux respond maxRetries base attempt lastErr sleeps remaining).sleeps =
        sleeps ++ (List.range' attempt
          ((sendAux respond maxRetries base attempt lastErr sleeps remaining).attempts
            - attempt)).map (backoffSleepSec base) := by
  intro remaining
  induction remaining with
  | zero =>
    intro attempt lastErr sleeps _
    simp [sendAux]
  | succ r ih =>
    intro attempt lastErr sleeps hattempt
    simp only [sendAux, if_pos (by omega : 0 < attempt)]
    by_cases h : attemptSucceeds (respond attempt) = true
    · rw [if_pos h]
      have h1 : attempt + 1 - attempt = 1 := by omega
      simp only [h1]
      simp [List.range'_one]
    · rw [if_neg h]
      rw [ih (attempt + 1) _ _ (by omega)]
      have hge := sendAux_attempts_ge respond maxRetries base r (attempt + 1)
        (some (attemptErrString (respond attempt))) (sleeps ++ [backoffSleepSec base attempt])
      set T := sendAux respond maxRetries base (attempt + 1)
        (some (attemptErrString (respond attempt))) (sleeps ++ [backoffSleepSec base attempt]) r
      have hsplit : T.attempts - attempt = (T.attempts - (attempt + 1)) + 1 := by omega
      rw [hsplit, List.range'_succ, List.map_cons]
      simp

lemma sendAux_all_fail (respond : ℕ → AttemptOutcome) (maxRetries : ℕ) (base : ℚ) :
    ∀ (remaining attempt : ℕ) (lastErr : Option String) (sleeps : List ℤ),
      1 ≤ remaining →
      (∀ n, attempt ≤ n → n < attempt + remaining → ¬ attemptSucceeds (respond n) = true) →
      (sendAux respond maxRetries base attempt lastErr sleeps remaining).result =
        Except.error (maxRetries + 1, some (attemptErrString (respond (attempt + remaining - 1)))) ∧
      (sendAux respond maxRetries base attempt lastErr sleeps remaining).attempts =
        attempt + remaining := by
  intro remaining
  induction remaining with
  | zero => intro attempt lastErr sleeps h; omega
  | succ r ih =>
    intro attempt lastErr sleeps _ hfail
    have hthis : ¬ attemptSucceeds (respond attempt) = true :=
      hfail attempt (le_refl _) (by omega)
    simp only [sendAux, if_neg hthis]
    rcases Nat.eq_zero_or_pos r with rfl | hr
    · simp [sendAux]
    · have := ih (attempt + 1) (some (attemptErrString (respond attempt)))
        (if 0 < attempt then sleeps ++ [backoffSleepSec base attempt] else sleeps)
        (by omega) (fun n h1 h2 => hfail n (by omega) (by omega))
      have hidx : attempt + (r + 1) - 1 = attempt + 1 + r - 1 := by omega
      constructor
      · rw [hidx]
        exact this.1
      · rw [this.2]
        omega

lemma sendAux_first_success (respond : ℕ → AttemptOutcome) (maxRetries : ℕ) (base : ℚ) :
    ∀ (remaining attempt : ℕ) (lastErr : Option String) (sleeps : List ℤ) (n : ℕ),
      attempt ≤ n → n < attempt + remaining →
      attemptSucceeds (respond n) = true →
      (∀ m, attempt ≤ m → m < n → ¬ attemptSucceeds (respond m) = true) →
      (sendAux respond maxRetries base attempt lastErr sleeps remaining).result =
        Except.ok n ∧
      (sendAux respond maxRetries base attempt lastErr sleeps remaining).attempts = n + 1 := by
  intro remaining
  induction remaining with
  | zero => intro attempt lastErr sleeps n h1 h2; omega
  | succ r ih =>
    intro attempt lastErr sleeps n h1 h2 hsucc hmin
    rcases Nat.eq_or_lt_of_le h1 with rfl | hlt
    · simp only [sendAux, if_pos hsucc]
      simp
    · have hthis : ¬ attemptSucceeds (respond attempt) = true :=
      hmin attempt (le_refl _) hlt
      simp only [sendAux, if_neg hthis]
      exact ih (attempt + 1) (some (attemptErrString (respond attempt)))
        (if 0 < attempt then sleeps ++ [backoffSleepSec base attempt] else sleeps)
        n (by omega) (by omega) hsucc (fun m hm1 hm2 => hmin m (by omega) hm2)

lemma backoffSleepSec_natCast (b k : ℕ) :
    backoffSleepSec (b : ℚ) (1 + k) = (b : ℤ) * 2 ^ k := by
  unfold backoffSleepSec
  have h1 : 1 + k - 1 = k := by omega
  rw [h1]
  have h2 : (b : ℚ) * (2 : ℚ) ^ k = ((b * 2 ^ k : ℤ) : ℚ) := by
    push_cast
    ring
  rw [h2, Int.floor_intCast]

lemma sendWithRetry_ok_inv (respond : ℕ → AttemptOutcome) (maxRetries : ℕ) (base : ℚ)
    (n : ℕ) (hok : (sendWithRetry respond maxRetries base).result = Except.ok n) :
    ∃ m, m ≤ maxRetries ∧ attemptSucceeds (respond m) = true := by
  by_contra hc
  push_neg at hc
  have hfail : ∀ k, 0 ≤ k → k < 0 + (maxRetries + 1) → ¬ attemptSucceeds (respond k) = true := by
    intro k _ hk
    exact by simpa using hc k (by omega)
  have := (sendAux_all_fail respond maxRetries base (maxRetries + 1) 0 none [] (by omega) hfail).1
  rw [sendWithRetry] at hok
  rw [this] at hok
  cases hok

/-- C1. The retry policy of `sendWithRetry` over an abstract per-attempt
transport, at an integral base (the program fixes `retryBaseSec = 1.0`):
at most `maxRetries + 1` attempts fire; the backoff sleeps performed are
exactly `base * 2^(n-1)` seconds before retry `n` for `n = 1, 2, …`; an
attempt succeeds iff its HTTP status lies in `[200, 300)`; a success
returns the first succeeding attempt immediately; and if every attempt
fails, the result is an error carrying the attempt count `maxRetries + 1`
and the last recorded failure cause. -/
theorem sendWithRetry_policy (respond : ℕ → AttemptOutcome) (maxRetries : ℕ) (b : ℕ) :
    (∀ st body, attemptSucceeds (AttemptOutcome.response st body) = true ↔
      200 ≤ st ∧ st < 300) ∧
    (∀ msg, attemptSucceeds (AttemptOutcome.transportError msg) = false) ∧
    (sendWithRetry respond maxRetries (b : ℚ)).attempts ≤ maxRetries + 1 ∧
    (sendWithRetry respond maxRetries (b : ℚ)).sleeps =
      (List.range ((sendWithRetry respond maxRetries (b : ℚ)).attempts - 1)).map
        (fun k => (b : ℤ) * 2 ^ k) ∧
    (∀ n, (sendWithRetry respond maxRetries (b : ℚ)).result = Except.ok n →
      n ≤ maxRetries ∧ attemptSucceeds (respond n) = true ∧
      (∀ m, m < n → ¬ attemptSucceeds (respond m) = true) ∧
      (sendWithRetry respond maxRetries (b : ℚ)).attempts = n + 1) ∧
    ((∃ n, n ≤ maxRetries ∧ attemptSucceeds (respond n) = true) ↔
      (∃ n, (sendWithRetry respond maxRetries (b : ℚ)).result = Except.ok n)) ∧
    ((∀ n, n ≤ maxRetries → ¬ attemptSucceeds (respond n) = true) →
      (sendWithRetry respond maxRetries (b : ℚ)).result =
        Except.error (maxRetries + 1, some (attemptErrString (respond maxRetries))) ∧
      (sendWithRetry respond maxRetries (b : ℚ)).attempts = maxRetries + 1) := by
  have hfirst : ∀ w, w ≤ maxRetries → attemptSucceeds (respond w) = true →
      ∃ N, N ≤ maxRetries ∧ attemptSucceeds (respond N) = true ∧
        (∀ m, m < N → ¬ attemptSucceeds (respond m) = true) ∧
        (sendWithRetry respond maxRetries (b : ℚ)).result = Except.ok N ∧
        (sendWithRetry respond maxRetries (b : ℚ)).attempts = N + 1 := by
    intro w hw hsw
    have hex : ∃ m, attemptSucceeds (respond m) = true := ⟨w, hsw⟩
    have hNle : Nat.find hex ≤ w := Nat.find_min' hex hsw
    have hNsucc := Nat.find_spec hex
    have hNmin : ∀ m, m < Nat.find hex → ¬ attemptSucceeds (respond m) = true :=
      fun m hm => Nat.find_min hex hm
    have := sendAux_first_success respond maxRetries (b : ℚ) (maxRetries + 1) 0 none []
      (Nat.find hex) (by omega) (by omega) hNsucc (fun m _ hm => hNmin m hm)
    exact ⟨Nat.find hex, by omega, hNsucc, hNmin, this.1, this.2⟩
  refine ⟨?_, ?_, ?_, ?_, ?_, ?_, ?_⟩
  · intro st body
    simp [attemptSucceeds]
  · intro msg
    simp [attemptSucceeds]
  · simpa using sendAux_attempts_le respond maxRetries (b : ℚ) (maxRetries + 1) 0 none []
  · -- the sleeps schedule
    have h0 : sendWithRetry respond maxRetries (b : ℚ) =
        sendAux respond maxRetries (b : ℚ) 0 none [] (maxRetries + 1) := rfl
    rw [h0]
    simp only [sendAux, if_neg (by omega : ¬ 0 < 0)]
    by_cases h : attemptSucceeds (respond 0) = true
    · rw [if_pos h]
      simp
    · rw [if_neg h]
      set T := sendAux respond maxRetries (b : ℚ) 1
        (some (attemptErrString (respond 0))) [] maxRetries with hT
      rw [sendAux_sleeps respond maxRetries (b : ℚ) maxRetries 1 _ _ (by omega)]
      rw [List.nil_append]
      have hrange : List.range' 1 (T.attempts - 1) =
          (List.range (T.attempts - 1)).map (fun x => 1 + x) := by
        rw [List.range_eq_range', List.map_add_range']
      rw [← hT, hrange, List.map_map]
      apply List.map_congr_left
      intro k _
      simpa using backoffSleepSec_natCast b k
  · -- properties of a successful result
    intro n hok
    obtain ⟨w, hw, hsw⟩ := sendWithRetry_ok_inv respond maxRetries (b : ℚ) n hok
    obtain ⟨N, hN1, hN2, hN3, hN4, hN5⟩ := hfirst w hw hsw
    have : n = N := by
      rw [hok] at hN4
      cases hN4
      rfl
    subst this
    exact ⟨hN1, hN2, hN3, hN5⟩
  · constructor
    · rintro ⟨w, hw, hsw⟩
      obtain ⟨N, _, _, _, hN4, _⟩ := hfirst w hw hsw
      exact ⟨N, hN4⟩
    · rintro ⟨n, hok⟩
      exact sendWithRetry_ok_inv respond maxRetries (b : ℚ) n hok
  · -- exhaustion
    intro hall
    have hfail : ∀ k, 0 ≤ k → k < 0 + (maxRetries + 1) → ¬ attemptSucceeds (respond k) = true :=
      fun k _ hk => hall k (by omega)
    have := sendAux_all_fail respond maxRetries (b : ℚ) (maxRetries + 1) 0 none [] (by omega) hfail
    constructor
    · rw [show (0 + (maxRetries + 1) - 1) = maxRetries by omega] at this
      exact this.1
    · rw [show (0 + (maxRetries + 1)) = maxRetries + 1 by omega] at this
      exact this.2

/-- C9. Concurrent streaming ingestion: whichever way the line channel
distributes the `N` input lines over the `W ≥ 1` parse workers (the worker
inputs jointly form a permutation of the lines) and whichever way the
collector interleaves the workers' outputs (any permutation of their
concatenation covers every interleaving), the collected entries form the
same multiset as sequential single-threaded parsing of the same lines; the
order, by contrast, is whatever the interleaving gives. -/
theorem readAndParseFromS3_multiset (E : Type) (parse : String → Option E)
    (lines : List String) (workerInputs : List (List String)) (collected : List E)
    (hdist : workerInputs.flatten.Perm lines)
    (hcollect : collected.Perm (workerInputs.map (workerEntries parse)).flatten) :
    Multiset.ofList collected = Multiset.ofList (sequentialEntries parse lines) := by
  have h1 : (workerInputs.map (workerEntries parse)).flatten =
      workerEntries parse workerInputs.flatten := by
    unfold workerEntries
    exact (List.filterMap_flatten _ _).symm
  have h2 : (workerEntries parse workerInputs.flatten).Perm
      (workerEntries parse lines) := hdist.filterMap _
  have hp : collected.Perm (sequentialEntries parse lines) :=
    (hcollect.trans (h1 ▸ List.Perm.refl _)).trans h2
  exact Multiset.coe_eq_coe.mpr hp

/-- C9 witness: two workers, a blank line and a malformed line among the
input, the collected entries out of file order. -/
theorem readAndParseFromS3_multiset_witness :
    Multiset.ofList ["2", "1"] =
    Multiset.ofList (sequentialEntries
      (fun s => if s = "x" then none else some s) ["1", "", "x", "2"]) :=
  readAndParseFromS3_multiset String (fun s => if s = "x" then none else some s)
    ["1", "", "x", "2"] [["1", ""], ["x", "2"]] ["2", "1"]
    (List.Perm.refl _) (List.Perm.swap "1" "2" [])

/-- The C4 claim as stated, for refutation: target-group identifier when
present, else certificate identifier, with a non-empty result exactly when
some identifying field is present (an identifier being "present" when it is
neither empty nor the absent sentinel `-`, the test the code itself applies
to the target-group field). -/
def resourceKeyClaimC4 : Prop :=
  ∀ e : ALBLogEntry,
    ((e.TargetGroupARN ≠ "" ∧ e.TargetGroupARN ≠ "-") →
      getResourceKey e = e.TargetGroupARN) ∧
    (¬(e.TargetGroupARN ≠ "" ∧ e.TargetGroupARN ≠ "-") →
      getResourceKey e = e.ChosenCertARN) ∧
    (((e.TargetGroupARN ≠ "" ∧ e.TargetGroupARN ≠ "-") ∨
      (e.ChosenCertARN ≠ "" ∧ e.ChosenCertARN ≠ "-")) → getResourceKey e ≠ "") ∧
    (¬(e.TargetGroupARN ≠ "" ∧ e.TargetGroupARN ≠ "-") ∧
      ¬(e.ChosenCertARN ≠ "" ∧ e.ChosenCertARN ≠ "-") → getResourceKey e = "")

/-- C4 counterexample: an entry with an absent target group and the
certificate field holding the absent sentinel `-`. No identifying field is
present, yet the derived key is the literal `-`, not the empty string, so
the claim as stated fails. -/
theorem getResourceKey_sentinel_cert_counterexample :
    getResourceKey ⟨"", "-"⟩ = "-" ∧
    getResourceKey ⟨"", "-"⟩ ≠ "" ∧
    ¬ resourceKeyClaimC4 :=
  ⟨by decide, by decide, fun h => by
    have hc := (h ⟨"", "-"⟩).2.2.2
    simp only [getResourceKey] at hc
    have := hc ⟨by simp, by simp⟩
    simp at this⟩

/-- C4 amended. Resource-key derivation (both `getResourceKey` and
`ALBAdapter.GetResourceKey`, which agree) returns the target-group
identifier when it is neither empty nor `-`; otherwise it returns the
certificate field verbatim — so the result is non-empty whenever the
target-group identifier is present or the certificate field is a non-empty
string (including the degenerate sentinel `-`), and is empty exactly when
the target group is absent and the certificate field is the empty
string. -/
theorem getResourceKey_precedence (e : ALBLogEntry) (acct region : String) :
    (ALBAdapter.GetResourceKey ⟨e, acct, region⟩ = getResourceKey e) ∧
    ((e.TargetGroupARN ≠ "" ∧ e.TargetGroupARN ≠ "-") →
      getResourceKey e = e.TargetGroupARN) ∧
    ((e.TargetGroupARN = "" ∨ e.TargetGroupARN = "-") →
      getResourceKey e = e.ChosenCertARN) ∧
    (((e.TargetGroupARN ≠ "" ∧ e.TargetGroupARN ≠ "-") ∨ e.ChosenCertARN ≠ "") →
      getResourceKey e ≠ "") ∧
    ((e.TargetGroupARN = "" ∨ e.TargetGroupARN = "-") ∧ e.ChosenCertARN = "" →
      getResourceKey e = "") := by
  refine ⟨rfl, ?_⟩
  simp only [getResourceKey]
  by_cases h : e.TargetGroupARN = "" ∨ e.TargetGroupARN = "-"
  · rw [if_pos h]
    refine ⟨?_, ?_, ?_, ?_⟩
    · intro hp
      exact absurd h (by tauto)
    · intro _; rfl
    · intro hor
      rcases hor with hp | hc
      · exact absurd h (by tauto)
      · exact hc
    · intro hand
      exact hand.2
  · rw [if_neg h]
    push_neg at h
    refine ⟨?_, ?_, ?_, ?_⟩
    · intro _; rfl
    · intro hor
      exact absurd hor (by tauto)
    · intro _
      exact h.1
    · intro hand
      exact absurd hand.1 (by tauto)

/-! ## CloudFront parser theorems -/

/-- C5. `ParseCloudFrontLogLine` on any non-blank, non-comment record:
fewer than 33 tab-separated columns is a structural error (carrying the
column count), and 33 or more columns yield an entry whose 33 typed fields
are exactly the corresponding columns under the numeric coercion rules
(`cloudFrontEntryOfFields` maps column `i` to field `i+1` verbatim for
string columns and through `parseCFInt`/`parseCFInt64`/`parseCFFloat` for
numeric ones). -/
theorem ParseCloudFrontLogLine_column_contract (line : String) :
    (goTrimSpace line ≠ "" → startsWithHash (goTrimSpace line) = false →
      (goSplitTab (goTrimSpace line)).length < 33 →
      ParseCloudFrontLogLine line =
        Except.error ("invalid number of fields: got " ++
          toString (goSplitTab (goTrimSpace line)).length ++ ", expected 33")) ∧
    (goTrimSpace line ≠ "" → startsWithHash (goTrimSpace line) = false →
      33 ≤ (goSplitTab (goTrimSpace line)).length →
      ParseCloudFrontLogLine line =
        Except.ok (some (cloudFrontEntryOfFields (goSplitTab (goTrimSpace line))))) := by
  constructor
  · intro h1 h2 h3
    simp only [ParseCloudFrontLogLine]
    rw [if_neg (by simp [h1, h2]), if_pos h3]
  · intro h1 h2 h3
    simp only [ParseCloudFrontLogLine]
    rw [if_neg (by simp [h1, h2]), if_neg (by omega)]

/-- A 33-column record whose integer `sc-status` column holds the
unparsable text `abc`. -/
def cfGarbageStatusLine : String :=
  String.intercalate "\t"
    ["2019-12-04", "21:02:31", "LAX1", "392", "192.0.2.100", "GET",
     "d111111abcdef8.cloudfront.net", "/index.html", "abc", "-",
     "Mozilla/5.0", "-", "-", "Hit", "REQID", "d111111abcdef8.cloudfront.net",
     "https", "23", "0.001", "-", "TLSv1.2", "CIPHER", "Hit", "HTTP/2.0",
     "-", "-", "11040", "0.001", "Hit", "text/html", "78", "-", "-"]

/-- C10. `ParseCloudFrontLogLine` errors exactly on non-blank, non-comment
records with fewer than 33 columns — numeric-conversion failures are
discarded: `parseCFInt` coerces unparsable text such as `abc` to zero, and
the concrete 33-column record `cfGarbageStatusLine` with `abc` in its
`sc-status` column still parses to an entry, with `SCStatus = 0`. -/
theorem ParseCloudFrontLogLine_error_iff (line : String) :
    ((∃ msg, ParseCloudFrontLogLine line = Except.error msg) ↔
      (goTrimSpace line ≠ "" ∧ startsWithHash (goTrimSpace line) = false ∧
        (goSplitTab (goTrimSpace line)).length < 33)) ∧
    parseCFInt "abc" = 0 ∧
    (ParseCloudFrontLogLine cfGarbageStatusLine).toOption.join.map
      (fun e => e.SCStatus) = some 0 := by
  refine ⟨?_, by decide, by decide⟩
  constructor
  · rintro ⟨msg, hmsg⟩
    simp only [ParseCloudFrontLogLine] at hmsg
    by_cases h1 : goTrimSpace line = "" ∨ startsWithHash (goTrimSpace line) = true
    · rw [if_pos h1] at hmsg
      cases hmsg
    · rw [if_neg h1] at hmsg
      push_neg at h1
      by_cases h2 : (goSplitTab (goTrimSpace line)).length < 33
      · exact ⟨h1.1, by simpa using h1.2, h2⟩
      · rw [if_neg h2] at hmsg
        cases hmsg
  · rintro ⟨h1, h2, h3⟩
    exact ⟨_, by
      simp only [ParseCloudFrontLogLine]
      rw [if_neg (by simp [h1, h2]), if_pos h3]⟩

/-! ## NLB parser theorems -/

/-- The spec's example NLB TLS log line. -/
def nlbExampleLine : String :=
  "tls 2.0 2023-10-01T00:00:00.000000Z app/net-lb/1234567890abcdef " ++
  "listener/net-lb/1234567890abcdef/1234567890abcdef 1.2.3.4:12345 5.6.7.8:80 " ++
  "0.001 0.002 100 200 - " ++
  "arn:aws:acm:us-east-1:123456789012:certificate/12345678-1234-1234-1234-123456789012 " ++
  "- ECDHE-RSA-AES128-GCM-SHA256 TLSv1.2 - example.com h2 - 2.000"

/-- The submatch list of `nlbLogPattern` on the example line: the full
match (the whole line — the pattern has no end anchor and its last greedy
group reaches the end) followed by the 23 captures. -/
def nlbExampleMatches : List String :=
  [nlbExampleLine, "tls", "2.0", "2023-10-01T00:00:00.000000Z",
   "app/net-lb/1234567890abcdef",
   "listener/net-lb/1234567890abcdef/1234567890abcdef",
   "1.2.3.4", "12345", "5.6.7.8", "80", "0.001", "0.002", "100", "200", "-",
   "arn:aws:acm:us-east-1:123456789012:certificate/12345678-1234-1234-1234-123456789012",
   "-", "ECDHE-RSA-AES128-GCM-SHA256", "TLSv1.2", "-", "example.com", "h2",
   "-", "2.000"]

/-- C6. `ParseNLBLogLine`: on the spec's example TLS line the parsed entry
carries `ClientIP = 1.2.3.4`, `ClientPort = 12345`, `TargetIP = 5.6.7.8`,
`TargetPort = 80` and `TLSHandshakeTimeMS = 2.000`; the literal string
`invalid log line` is a structural error; and on every non-blank,
non-comment line the single anchored pattern either fails — a parse error,
nothing extracted — or matches and every field is filled from its
submatch. -/
theorem ParseNLBLogLine_contract (line : String) :
    (∃ e, ParseNLBLogLine nlbExampleLine = Except.ok (some e) ∧
      e.ClientIP = "1.2.3.4" ∧ e.ClientPort = 12345 ∧
      e.TargetIP = "5.6.7.8" ∧ e.TargetPort = 80 ∧ e.TLSHandshakeTimeMS = 2) ∧
    (ParseNLBLogLine "invalid log line" = Except.error "failed to parse NLB log line") ∧
    (goTrimSpace line ≠ "" → startsWithHash (goTrimSpace line) = false →
      goFindStringSubmatchAnchored nlbLogPattern (goTrimSpace line) = none →
      ParseNLBLogLine line = Except.error "failed to parse NLB log line") ∧
    (∀ ms, goTrimSpace line ≠ "" → startsWithHash (goTrimSpace line) = false →
      goFindStringSubmatchAnchored nlbLogPattern (goTrimSpace line) = some ms →
      ParseNLBLogLine line = Except.ok (some (nlbEntryOfMatches ms))) := by
  refine ⟨?_, by decide, ?_, ?_⟩
  · have htrim : goTrimSpace nlbExampleLine = nlbExampleLine := by decide
    have hfind : goFindStringSubmatchAnchored nlbLogPattern nlbExampleLine =
        some nlbExampleMatches := by decide
    have hparse : ParseNLBLogLine nlbExampleLine =
        Except.ok (some (nlbEntryOfMatches nlbExampleMatches)) := by
      simp only [ParseNLBLogLine, htrim]
      rw [if_neg (by decide), hfind]
    exact ⟨nlbEntryOfMatches nlbExampleMatches, hparse, by decide, by decide,
      by decide, by decide, by with_unfolding_all decide⟩
  · intro h1 h2 hm
    simp only [ParseNLBLogLine]
    rw [if_neg (by simp [h1, h2]), hm]
  · intro ms h1 h2 hm
    simp only [ParseNLBLogLine]
    rw [if_neg (by simp [h1, h2]), hm]

/-! ## C8: the absent sentinel in numeric columns -/

/-- An NLB record whose client `ip:port` column — the column that feeds the
numeric `ClientPort` field — holds the absent sentinel `-`. -/
def nlbSentinelClientLine : String :=
  "tls 2.0 2023-10-01T00:00:00.000000Z app/net-lb/x listener/y - 5.6.7.8:80 " ++
  "0.001 0.002 100 200 - arn - CIPHER TLSv1.2 - example.com h2 - 2.000"

/-- An NLB record whose client port sub-field holds the sentinel. -/
def nlbSentinelPortLine : String :=
  "tls 2.0 2023-10-01T00:00:00.000000Z app/net-lb/x listener/y 1.2.3.4:- 5.6.7.8:80 " ++
  "0.001 0.002 100 200 - arn - CIPHER TLSv1.2 - example.com h2 - 2.000"

/-- C8 counterexample: for the NLB regex format, a record whose numeric
client-port column holds the absent sentinel (whether the whole `ip:port`
column is `-` or just its port half) does NOT parse to a zero field — the
anchored pattern (`([^ ]*):([0-9]*)`, whose port class cannot match `-`)
fails and the parser returns a structural error. -/
theorem ParseNLBLogLine_sentinel_port_errors :
    ParseNLBLogLine nlbSentinelClientLine =
      Except.error "failed to parse NLB log line" ∧
    ParseNLBLogLine nlbSentinelPortLine =
      Except.error "failed to parse NLB log line" := by
  have ht1 : goTrimSpace nlbSentinelClientLine = nlbSentinelClientLine := by decide
  have ht2 : goTrimSpace nlbSentinelPortLine = nlbSentinelPortLine := by decide
  have hf1 : goFindStringSubmatchAnchored nlbLogPattern nlbSentinelClientLine = none := by
    decide
  have hf2 : goFindStringSubmatchAnchored nlbLogPattern nlbSentinelPortLine = none := by
    decide
  constructor
  · simp only [ParseNLBLogLine, ht1]
    rw [if_neg (by decide), hf1]
  · simp only [ParseNLBLogLine, ht2]
    rw [if_neg (by decide), hf2]

/-- An NLB record with the sentinel in every standalone numeric column
(connection time, handshake time, byte counts, trailing handshake-ms). -/
def nlbSentinelNumericsLine : String :=
  "tls 2.0 2023-10-01T00:00:00.000000Z app/net-lb/x listener/y 1.2.3.4:12345 5.6.7.8:80 " ++
  "- - - - - arn - CIPHER TLSv1.2 - example.com h2 - -"

/-- The submatch list of `nlbLogPattern` on `nlbSentinelNumericsLine`. -/
def nlbSentinelNumericsMatches : List String :=
  [nlbSentinelNumericsLine, "tls", "2.0", "2023-10-01T00:00:00.000000Z",
   "app/net-lb/x", "listener/y", "1.2.3.4", "12345", "5.6.7.8", "80",
   "-", "-", "-", "-", "-", "arn", "-", "CIPHER", "TLSv1.2", "-",
   "example.com", "h2", "-", "-"]

/-- A CloudFront record with the sentinel in every numeric column. -/
def cfAllSentinelLine : String :=
  String.intercalate "\t"
    ["2019-12-04", "21:02:31", "LAX1", "-", "192.0.2.100", "GET",
     "host", "/index.html", "-", "-", "UA", "-", "-", "Hit", "REQID", "host",
     "https", "-", "-", "-", "TLSv1.2", "CIPHER", "Hit", "HTTP/2.0",
     "-", "-", "-", "-", "Hit", "text/html", "-", "-", "-"]

/-- C8 amended. The absent sentinel (`-` or empty) maps to zero in every
numeric coercion of the parsers — `parseCFInt`, `parseCFInt64`,
`parseCFFloat` and the regex-side `getInt`/`getInt64`/`getFloat` — and a
record with the sentinel in a numeric column parses with that field zero
wherever the column grammar admits the sentinel at all: every numeric
column of the fixed-column CloudFront format, and the standalone numeric
columns of the NLB format (its `ip:port` port sub-fields cannot hold `-`:
see the counterexample). -/
theorem absent_sentinel_maps_to_zero (s : String) :
    ((s = "-" ∨ s = "") →
      parseCFInt s = 0 ∧ parseCFInt64 s = 0 ∧ parseCFFloat s = 0 ∧
      getInt [s] 0 = 0 ∧ getInt64 [s] 0 = 0 ∧ getFloat [s] 0 = 0) ∧
    (∃ e, ParseCloudFrontLogLine cfAllSentinelLine = Except.ok (some e) ∧
      e.SCBytes = 0 ∧ e.SCStatus = 0 ∧ e.CSBytes = 0 ∧ e.TimeTaken = 0 ∧
      e.FLEEncryptedFields = 0 ∧ e.CPort = 0 ∧ e.TimeToFirstByte = 0 ∧
      e.SCContentLen = 0) ∧
    (∃ e, ParseNLBLogLine nlbSentinelNumericsLine = Except.ok (some e) ∧
      e.ConnectionTime = 0 ∧ e.TLSHandshakeTime = 0 ∧ e.ReceivedBytes = 0 ∧
      e.SentBytes = 0 ∧ e.TLSHandshakeTimeMS = 0) := by
  have htrim : goTrimSpace nlbSentinelNumericsLine = nlbSentinelNumericsLine := by decide
  have hfind : goFindStringSubmatchAnchored nlbLogPattern nlbSentinelNumericsLine =
      some nlbSentinelNumericsMatches := by decide
  have hparse : ParseNLBLogLine nlbSentinelNumericsLine =
      Except.ok (some (nlbEntryOfMatches nlbSentinelNumericsMatches)) := by
    simp only [ParseNLBLogLine, htrim]
    rw [if_neg (by decide), hfind]
  refine ⟨?_, ?_, ?_⟩
  · rintro (rfl | rfl) <;>
      simp [parseCFInt, parseCFInt64, parseCFFloat, getInt, getInt64, getFloat]
  · exact ⟨cloudFrontEntryOfFields (goSplitTab cfAllSentinelLine), by decide,
      by decide, by decide, by decide, by with_unfolding_all decide, by decide,
      by decide, by with_unfolding_all decide, by decide⟩
  · exact ⟨nlbEntryOfMatches nlbSentinelNumericsMatches, hparse,
      by with_unfolding_all decide, by with_unfolding_all decide, by decide,
      by decide, by with_unfolding_all decide⟩

/-! ## Lemmas: the key-layout pattern -/

lemma drop_lt_takeWhile_len (p : Char → Bool) :
    ∀ (s : List Char) (j : ℕ), j < (s.takeWhile p).length →
      ∃ x tail, s.drop j = x :: tail ∧ p x = true := by
  intro s
  induction s with
  | nil => intro j hj; simp at hj
  | cons a s ih =>
    intro j hj
    by_cases hpa : p a = true
    · rw [List.takeWhile_cons_of_pos hpa] at hj
      cases j with
      | zero => exact ⟨a, s, rfl, hpa⟩
      | succ j =>
        simp only [List.length_cons, Nat.add_lt_add_iff_right] at hj
        exact ih j hj
    · rw [List.takeWhile_cons_of_neg hpa] at hj
      simp at hj

lemma tryFrom_forced (f : List Char → Option (List String × List Char)) (capture : Bool)
    (low : ℕ) (s : List Char) (p : Char → Bool)
    (hfail : ∀ j, j < (s.takeWhile p).length → f (s.drop j) = none) :
    ∀ k, k ≤ (s.takeWhile p).length →
      tryFrom f capture low s k =
        if k = (s.takeWhile p).length ∧ low ≤ k then
          (f (s.drop k)).map
            (fun pr => ((if capture then [String.mk (s.take k)] else []) ++ pr.1, pr.2))
        else none := by
  intro k
  induction k with
  | zero =>
    intro hk
    simp only [tryFrom]
    by_cases hlow : 0 < low
    · rw [if_pos hlow, if_neg (by omega)]
    · rw [if_neg hlow]
      by_cases hrun : 0 = (s.takeWhile p).length
      · rw [if_pos (show 0 = (s.takeWhile p).length ∧ low ≤ 0 from ⟨hrun, by omega⟩)]
        simp only [List.drop_zero, List.take_zero]
        cases hfs : f s <;> rfl
      · rw [if_neg (show ¬(0 = (s.takeWhile p).length ∧ low ≤ 0) by tauto)]
        have h0 := hfail 0 (by omega)
        simp only [List.drop_zero] at h0
        rw [h0]
  | succ k ih =>
    intro hk
    simp only [tryFrom]
    by_cases hlow : k + 1 < low
    · rw [if_pos hlow, if_neg (by omega)]
    · rw [if_neg hlow]
      by_cases hrun : k + 1 = (s.takeWhile p).length
      · rw [if_pos (show k + 1 = (s.takeWhile p).length ∧ low ≤ k + 1 from
          ⟨hrun, by omega⟩)]
        cases hfs : f (s.drop (k + 1)) with
        | none =>
          show tryFrom f capture low s k = _
          rw [ih (by omega), if_neg (by omega)]
          rfl
        | some pr => rfl
      · have hklt : k + 1 < (s.takeWhile p).length := by omega
        rw [if_neg (show ¬(k + 1 = (s.takeWhile p).length ∧ low ≤ k + 1) by tauto),
          hfail (k + 1) hklt]
        show tryFrom f capture low s k = none
        rw [ih (by omega),
          if_neg (show ¬(k = (s.takeWhile p).length ∧ low ≤ k) from fun h => by omega)]

lemma matchItems_lits (ws : List Char) (items : List RItem) :
    ∀ cs : List Char,
      matchItems (ws.map RItem.lit ++ items) cs =
        if cs.take ws.length = ws then matchItems items (cs.drop ws.length) else none := by
  induction ws with
  | nil => intro cs; simp
  | cons w ws ih =>
    intro cs
    cases cs with
    | nil =>
      simp only [List.map_cons, List.cons_append, matchItems]
      rw [if_neg]
      simp
    | cons c cs =>
      simp only [List.map_cons, List.cons_append, matchItems, List.append_eq]
      by_cases hc : c = w
      · subst hc
        rw [if_pos rfl, ih cs]
        simp only [List.length_cons, List.take_succ_cons, List.drop_succ_cons]
        by_cases ht : cs.take ws.length = ws
        · rw [if_pos ht, if_pos (by rw [ht])]
        · rw [if_neg ht, if_neg (by simpa using ht)]
      · rw [if_neg hc, if_neg (by simp [hc])]

lemma matchItems_cls_forced (p : Char → Bool) (low : ℕ) (capture : Bool) (c : Char)
    (rest : List RItem) (cs : List Char) (hpc : ∀ x, p x = true → x ≠ c) :
    matchItems (RItem.cls p low capture :: RItem.lit c :: rest) cs =
      if (cs.drop (cs.takeWhile p).length).head? = some c ∧
          low ≤ (cs.takeWhile p).length then
        (matchItems rest (cs.drop ((cs.takeWhile p).length + 1))).map
          (fun pr => ((if capture then [String.mk (cs.take (cs.takeWhile p).length)]
            else []) ++ pr.1, pr.2))
      else none := by
  have hfail : ∀ j, j < (cs.takeWhile p).length →
      matchItems (RItem.lit c :: rest) (cs.drop j) = none := by
    intro j hj
    obtain ⟨x, tail, hdrop, hpx⟩ := drop_lt_takeWhile_len p cs j hj
    rw [hdrop]
    simp only [matchItems]
    rw [if_neg (hpc x hpx)]
  have htail : cs.drop ((cs.takeWhile p).length + 1) =
      (cs.drop (cs.takeWhile p).length).drop 1 := by
    rw [List.drop_drop, Nat.add_comm]
  simp only [matchItems]
  rw [tryFrom_forced _ capture low cs p hfail _ (le_refl _)]
  rcases hd : cs.drop (cs.takeWhile p).length with _ | ⟨c1, tail⟩
  · rw [if_neg (show ¬(([] : List Char).head? = some c ∧
        low ≤ (cs.takeWhile p).length) from fun h => by simp at h)]
    by_cases hlow : low ≤ (cs.takeWhile p).length
    · rw [if_pos (show (cs.takeWhile p).length = (cs.takeWhile p).length ∧
          low ≤ (cs.takeWhile p).length from ⟨rfl, hlow⟩)]
      simp [matchItems]
    · rw [if_neg (show ¬((cs.takeWhile p).length = (cs.takeWhile p).length ∧
          low ≤ (cs.takeWhile p).length) from fun h => hlow h.2)]
  · have htail2 : cs.drop ((cs.takeWhile p).length + 1) = tail := by
      rw [htail, hd]
      rfl
    by_cases hlow : low ≤ (cs.takeWhile p).length
    case neg =>
      rw [if_neg (show ¬((cs.takeWhile p).length = (cs.takeWhile p).length ∧
          low ≤ (cs.takeWhile p).length) from fun h => hlow h.2),
        if_neg (show ¬((c1 :: tail).head? = some c ∧
          low ≤ (cs.takeWhile p).length) from fun h => hlow h.2)]
    case pos =>
    rw [if_pos (show (cs.takeWhile p).length = (cs.takeWhile p).length ∧
        low ≤ (cs.takeWhile p).length from ⟨rfl, hlow⟩)]
    by_cases hcc : c1 = c
    · subst hcc
      rw [if_pos (show (c1 :: tail).head? = some c1 ∧
          low ≤ (cs.takeWhile p).length from ⟨rfl, hlow⟩)]
      rw [htail2]
      simp [matchItems]
    · rw [if_neg (show ¬((c1 :: tail).head? = some c ∧
          low ≤ (cs.takeWhile p).length) from fun h => hcc (by simpa using h.1))]
      simp only [matchItems]
      rw [if_neg hcc]
      rfl

lemma isDigit_ne_slash : ∀ x : Char, Char.isDigit x = true → x ≠ '/' := by
  intro x hx hc
  subst hc
  simp [Char.isDigit] at hx

lemma notSlash_ne_slash : ∀ x : Char, notSlash x = true → x ≠ '/' := by
  intro x hx
  simpa [notSlash] using hx

lemma takeWhile_seg (p : Char → Bool) (a X : List Char) (c : Char)
    (ha : ∀ x ∈ a, p x = true) (hc : p c = false) :
    (a ++ c :: X).takeWhile p = a := by
  rw [List.takeWhile_append_of_pos ha, List.takeWhile_cons_of_neg (by simp [hc])]
  simp

lemma drop_len_succ_append (a X : List Char) (c : Char) :
    (a ++ c :: X).drop (a.length + 1) = X := by
  have h : a ++ c :: X = (a ++ [c]) ++ X := by simp
  rw [h, List.drop_left' (by simp)]

lemma matchItems_aws_complete (a s r t : List Char)
    (ha : a ≠ []) (ha2 : ∀ x ∈ a, Char.isDigit x = true)
    (hs : s ≠ []) (hs2 : ∀ x ∈ s, notSlash x = true)
    (hr : r ≠ []) (hr2 : ∀ x ∈ r, notSlash x = true) :
    matchItems awsLogsKeyPattern
      ("AWSLogs/".toList ++ (a ++ '/' :: (s ++ '/' :: (r ++ '/' :: t)))) =
      some ([String.mk a, String.mk r], t) := by
  have hpat : awsLogsKeyPattern =
      ("AWSLogs/".toList.map RItem.lit) ++
      [RItem.cls Char.isDigit 1 true, RItem.lit '/',
       RItem.cls notSlash 1 false, RItem.lit '/',
       RItem.cls notSlash 1 true, RItem.lit '/'] := rfl
  rw [hpat, matchItems_lits, List.take_left, if_pos rfl, List.drop_left]
  rw [matchItems_cls_forced Char.isDigit 1 true '/' _ _ isDigit_ne_slash]
  rw [takeWhile_seg Char.isDigit a _ '/' ha2 (by decide), List.drop_left,
    drop_len_succ_append]
  have hcond1 : ('/' :: (s ++ '/' :: (r ++ '/' :: t))).head? = some '/' ∧
      1 ≤ a.length := ⟨rfl, List.length_pos.mpr ha⟩
  rw [if_pos hcond1]
  rw [matchItems_cls_forced notSlash 1 false '/' _ _ notSlash_ne_slash]
  rw [takeWhile_seg notSlash s _ '/' hs2 (by simp [notSlash]), List.drop_left,
    drop_len_succ_append]
  have hcond2 : ('/' :: (r ++ '/' :: t)).head? = some '/' ∧ 1 ≤ s.length :=
    ⟨rfl, List.length_pos.mpr hs⟩
  rw [if_pos hcond2]
  rw [matchItems_cls_forced notSlash 1 true '/' _ _ notSlash_ne_slash]
  rw [takeWhile_seg notSlash r _ '/' hr2 (by simp [notSlash]), List.drop_left,
    drop_len_succ_append]
  have hcond3 : ('/' :: t).head? = some '/' ∧ 1 ≤ r.length :=
    ⟨rfl, List.length_pos.mpr hr⟩
  rw [if_pos hcond3]
  simp [matchItems]

lemma takeWhile_drop_reconstruct (p : Char → Bool) (l : List Char) :
    l = l.takeWhile p ++ l.drop (l.takeWhile p).length := by
  obtain ⟨t, ht⟩ := List.takeWhile_prefix (p := p) (l := l)
  have hdrop : l.drop (l.takeWhile p).length = t := by
    nth_rewrite 2 [← ht]
    rw [List.drop_left]
  rw [hdrop, ht]

lemma take_takeWhile_len (p : Char → Bool) (l : List Char) :
    l.take (l.takeWhile p).length = l.takeWhile p := by
  nth_rewrite 2 [takeWhile_drop_reconstruct p l]
  rw [List.take_left]

lemma matchItems_aws_sound (cs : List Char) (caps : List String) (rest : List Char)
    (h : matchItems awsLogsKeyPattern cs = some (caps, rest)) :
    ∃ a s r, caps = [String.mk a, String.mk r] ∧
      a ≠ [] ∧ (∀ x ∈ a, Char.isDigit x = true) ∧
      s ≠ [] ∧ (∀ x ∈ s, notSlash x = true) ∧
      r ≠ [] ∧ (∀ x ∈ r, notSlash x = true) ∧
      cs = "AWSLogs/".toList ++ (a ++ '/' :: (s ++ '/' :: (r ++ '/' :: rest))) := by
  have hpat : awsLogsKeyPattern =
      ("AWSLogs/".toList.map RItem.lit) ++
      [RItem.cls Char.isDigit 1 true, RItem.lit '/',
       RItem.cls notSlash 1 false, RItem.lit '/',
       RItem.cls notSlash 1 true, RItem.lit '/'] := rfl
  rw [hpat, matchItems_lits] at h
  by_cases h8 : cs.take ("AWSLogs/".toList.length) = "AWSLogs/".toList
  case neg => rw [if_neg h8] at h; cases h
  rw [if_pos h8] at h
  rw [matchItems_cls_forced Char.isDigit 1 true '/' _ _ isDigit_ne_slash] at h
  set X1 := cs.drop ("AWSLogs/".toList.length) with hX1
  by_cases hc1 : (X1.drop (X1.takeWhile Char.isDigit).length).head? = some '/' ∧
      1 ≤ (X1.takeWhile Char.isDigit).length
  case neg => rw [if_neg hc1] at h; cases h
  rw [if_pos hc1] at h
  rw [matchItems_cls_forced notSlash 1 false '/' _ _ notSlash_ne_slash] at h
  set X2 := X1.drop ((X1.takeWhile Char.isDigit).length + 1) with hX2
  by_cases hc2 : (X2.drop (X2.takeWhile notSlash).length).head? = some '/' ∧
      1 ≤ (X2.takeWhile notSlash).length
  case neg => rw [if_neg hc2] at h; simp at h
  rw [if_pos hc2] at h
  rw [matchItems_cls_forced notSlash 1 true '/' _ _ notSlash_ne_slash] at h
  set X3 := X2.drop ((X2.takeWhile notSlash).length + 1) with hX3
  by_cases hc3 : (X3.drop (X3.takeWhile notSlash).length).head? = some '/' ∧
      1 ≤ (X3.takeWhile notSlash).length
  case neg => rw [if_neg hc3] at h; simp at h
  rw [if_pos hc3] at h
  rw [show (matchItems [] (X3.drop ((X3.takeWhile notSlash).length + 1))) =
      some ([], X3.drop ((X3.takeWhile notSlash).length + 1)) from rfl] at h
  simp only [Option.map_some', Bool.false_eq_true, eq_self_iff_true, if_true,
    if_false, List.append_nil, List.nil_append, Option.some.injEq,
    Prod.mk.injEq] at h
  obtain ⟨hcaps, hrest⟩ := h
  subst hcaps
  subst hrest
  refine ⟨X1.takeWhile Char.isDigit, X2.takeWhile notSlash, X3.takeWhile notSlash,
    ?_, ?_, ?_, ?_, ?_, ?_, ?_, ?_⟩
  · simp [take_takeWhile_len]
  · exact List.length_pos.mp (by omega)
  · intro x hx; exact List.mem_takeWhile_imp hx
  · exact List.length_pos.mp (by omega)
  · intro x hx; exact List.mem_takeWhile_imp hx
  · exact List.length_pos.mp (by omega)
  · intro x hx; exact List.mem_takeWhile_imp hx
  · -- reconstruct the input
    obtain ⟨y1, hy1⟩ := List.head?_eq_some_iff.mp hc1.1
    obtain ⟨y2, hy2⟩ := List.head?_eq_some_iff.mp hc2.1
    obtain ⟨y3, hy3⟩ := List.head?_eq_some_iff.mp hc3.1
    have hX2y : X2 = y1 := by
      rw [hX2, ← List.drop_drop, hy1]
      rfl
    have hX3y : X3 = y2 := by
      rw [hX3, ← List.drop_drop, hy2]
      rfl
    have hRy : X3.drop ((X3.takeWhile notSlash).length + 1) = y3 := by
      rw [← List.drop_drop, hy3]
      rfl
    have e3 : X3 = X3.takeWhile notSlash ++
        '/' :: X3.drop ((X3.takeWhile notSlash).length + 1) := by
      conv_lhs => rw [takeWhile_drop_reconstruct notSlash X3]
      rw [hy3, hRy]
    have e2 : X2 = X2.takeWhile notSlash ++ '/' :: X3 := by
      conv_lhs => rw [takeWhile_drop_reconstruct notSlash X2]
      rw [hy2, ← hX3y]
    have e1 : X1 = X1.takeWhile Char.isDigit ++ '/' :: X2 := by
      conv_lhs => rw [takeWhile_drop_reconstruct Char.isDigit X1]
      rw [hy1, ← hX2y]
    calc cs = cs.take ("AWSLogs/".toList.length) ++ cs.drop ("AWSLogs/".toList.length) :=
        (List.take_append_drop _ cs).symm
      _ = "AWSLogs/".toList ++ X1 := by rw [h8, ← hX1]
      _ = _ := by
        conv_lhs => rw [e1, e2, e3]

lemma findFrom_eq_none (items : List RItem) :
    ∀ cs : List Char, (∀ i, matchItems items (cs.drop i) = none) →
      findFrom items cs = none := by
  intro cs
  induction cs with
  | nil =>
    intro h
    have h0 := h 0
    simpa [findFrom] using h0
  | cons c s ih =>
    intro h
    have h0 : matchItems items (c :: s) = none := by simpa using h 0
    simp only [findFrom, h0]
    exact ih (fun i => by simpa using h (i + 1))

lemma findFrom_pos (items : List RItem) :
    ∀ (cs : List Char) (j : ℕ) (res : List String × List Char),
      (∀ i, i < j → matchItems items (cs.drop i) = none) →
      matchItems items (cs.drop j) = some res →
      findFrom items cs = some res := by
  intro cs
  induction cs with
  | nil =>
    intro j res _ hj
    simp only [List.drop_nil] at hj
    simpa [findFrom] using hj
  | cons c s ih =>
    intro j res hlt hj
    cases j with
    | zero =>
      simp only [List.drop_zero] at hj
      simp [findFrom, hj]
    | succ j =>
      have h0 : matchItems items (c :: s) = none := by
        simpa using hlt 0 (by omega)
      simp only [findFrom, h0]
      exact ih j res (fun i hi => by simpa using hlt (i + 1) (by omega))
        (by simpa using hj)

/-- The canonical `AWSLogs/<account>/<service>/<region>/` layout occurring
at offset `i` of the key: a non-empty digit run, then two non-empty
slash-free segments, each closed by `/`. -/
def awsSegmentAt (key : String) (i : ℕ) : Prop :=
  ∃ a s r t : List Char,
    a ≠ [] ∧ (∀ x ∈ a, Char.isDigit x = true) ∧
    s ≠ [] ∧ (∀ x ∈ s, notSlash x = true) ∧
    r ≠ [] ∧ (∀ x ∈ r, notSlash x = true) ∧
    key.toList.drop i = "AWSLogs/".toList ++ (a ++ '/' :: (s ++ '/' :: (r ++ '/' :: t)))

/-- C7. `ParseRegionAccountFromS3Key`: the documented example key yields
`(123456789012, us-east-1)`; a key without the segment yields `("", "")`;
in general a key with no canonical `AWSLogs/<digits>/<service>/<region>/`
segment at any offset yields two empty strings (the function is total, so
it never fails), and a key containing the canonical segment — at its first
matching offset — yields exactly that segment's account id and region. -/
theorem ParseRegionAccountFromS3Key_contract (key : String) :
    (ParseRegionAccountFromS3Key
      "AWSLogs/123456789012/elasticloadbalancing/us-east-1/2023/01/01/x.log" =
      ("123456789012", "us-east-1")) ∧
    (ParseRegionAccountFromS3Key "2023/01/01/service-x/file.log" = ("", "")) ∧
    ((∀ i, ¬ awsSegmentAt key i) → ParseRegionAccountFromS3Key key = ("", "")) ∧
    (∀ p a s r t : List Char,
      key.toList = p ++ ("AWSLogs/".toList ++ (a ++ '/' :: (s ++ '/' :: (r ++ '/' :: t)))) →
      a ≠ [] → (∀ x ∈ a, Char.isDigit x = true) →
      s ≠ [] → (∀ x ∈ s, notSlash x = true) →
      r ≠ [] → (∀ x ∈ r, notSlash x = true) →
      (∀ i, i < p.length → ¬ awsSegmentAt key i) →
      ParseRegionAccountFromS3Key key = (String.mk a, String.mk r)) := by
  refine ⟨by decide, by decide, ?_, ?_⟩
  · intro hno
    have hfind : findFrom awsLogsKeyPattern key.toList = none := by
      apply findFrom_eq_none
      intro i
      rcases hmatch : matchItems awsLogsKeyPattern (key.toList.drop i) with _ | res
      · rfl
      · obtain ⟨caps, rest⟩ := res
        obtain ⟨a, s, r, _, ha, ha2, hs, hs2, hr, hr2, hdec⟩ :=
          matchItems_aws_sound _ _ _ hmatch
        exact absurd ⟨a, s, r, rest, ha, ha2, hs, hs2, hr, hr2, hdec⟩ (hno i)
    have hdef : ParseRegionAccountFromS3Key key =
        match findFrom awsLogsKeyPattern key.toList with
        | some pr => (pr.1.getD 0 "", pr.1.getD 1 "")
        | none => ("", "") := rfl
    rw [hdef, hfind]
  · intro p a s r t hkey ha ha2 hs hs2 hr hr2 hmin
    have hdrop : key.toList.drop p.length =
        "AWSLogs/".toList ++ (a ++ '/' :: (s ++ '/' :: (r ++ '/' :: t))) := by
      rw [hkey, List.drop_left]
    have hmatchp : matchItems awsLogsKeyPattern (key.toList.drop p.length) =
        some ([String.mk a, String.mk r], t) := by
      rw [hdrop]
      exact matchItems_aws_complete a s r t ha ha2 hs hs2 hr hr2
    have hfind : findFrom awsLogsKeyPattern key.toList =
        some ([String.mk a, String.mk r], t) := by
      apply findFrom_pos _ _ p.length _ _ hmatchp
      intro i hi
      rcases hmatch : matchItems awsLogsKeyPattern (key.toList.drop i) with _ | res
      · rfl
      · obtain ⟨caps, rest⟩ := res
        obtain ⟨a', s', r', _, ha', ha2', hs', hs2', hr', hr2', hdec'⟩ :=
          matchItems_aws_sound _ _ _ hmatch
        exact absurd ⟨a', s', r', rest, ha', ha2', hs', hs2', hr', hr2', hdec'⟩
          (hmin i hi)
    have hdef : ParseRegionAccountFromS3Key key =
        match findFrom awsLogsKeyPattern key.toList with
        | some pr => (pr.1.getD 0 "", pr.1.getD 1 "")
        | none => ("", "") := rfl
    rw [hdef, hfind]
    rfl
